import Mathlib

/-!
Shallow embedding of the streaming core of `src/app/chatgpt-stream-cli.js`
(repository KevinG115/chatGPT-cli): the fence-aware `CodeBlockFormatter`,
the line decoder and event-frame handling inside `streamChatOnce`, the
failure classifier `isRetriable`, and the retry loop
`askGPTStreamWithRetry`.

Strings are modelled as `List Char` (one entry per JavaScript string
position for the ASCII inputs considered here).  Terminal styling
(`chalk.cyan` / `chalk.reset` / `chalk.yellow`) is modelled by the tagged
output pieces `OutPiece`; "output with styling codes removed" is the
function `strip`.  The JSON payload extraction
`JSON.parse(...).choices?.[0]?.delta?.content` is performed by the
platform JSON library, not by repository code, so it is abstracted as a
parameter `extract : List Char → Option (List Char)` (`none` models a
parse failure or an absent delta; the `|| ''` fallback of the source is
`Option.getD []`).  Network transport is modelled by `HttpResponse`.
-/

namespace ChatCli

/-- The backtick character, U+0060: the character of the "```" fence marker. -/
def tick : Char := Char.ofNat 96

/-- The newline character used by the line splitter and the formatter. -/
def nl : Char := Char.ofNat 10

/-- JavaScript `String.prototype.trim`, at character granularity. -/
def trimChars (l : List Char) : List Char :=
  ((l.dropWhile Char.isWhitespace).reverse.dropWhile Char.isWhitespace).reverse

/-! ### Fence-Aware Formatter (`class CodeBlockFormatter`) -/

/-- One piece of styled terminal output produced by
`CodeBlockFormatter.formatToken`: the "enter code block" banner
(`chalk.yellow`, carrying the language tag), the "exit code block" banner
(`chalk.yellow`), or a single character styled by the in-fence flag
(`chalk.reset` inside a fence, `chalk.cyan` outside). -/
inductive OutPiece where
  | enterBanner (lang : List Char)
  | exitBanner
  | ch (inCode : Bool) (c : Char)
deriving DecidableEq

/-- The state of one `CodeBlockFormatter` instance:
`this.inCode`, `this.pending`, `this.currentLang`. -/
structure FmtState where
  inCode : Bool
  pending : List Char
  currentLang : List Char
deriving DecidableEq

/-- The constructor state: `inCode = false`, `pending = ''`, `currentLang = ''`. -/
def initFmt : FmtState := ⟨false, [], []⟩

/-- `this.pending.startsWith('```', i)`: the buffer starts with three backticks. -/
def startsWithFence : List Char → Bool
  | a :: b :: c :: _ => a == tick && b == tick && c == tick
  | _ => false

/-- Skip one leading newline if present
(`if (j < len && pending[j] === '\n') j++`). -/
def dropNl : List Char → List Char
  | c :: rest => if c = nl then rest else c :: rest
  | [] => []

/-- The scanning `while (i < this.pending.length)` loop of `formatToken`,
with an explicit iteration bound `fuel`.  Every iteration of the source
loop consumes at least one character of the buffer, so `fuel :=
buffer.length` (as passed by `scan`) is never exhausted. -/
def scanF : Nat → Bool → List Char → List Char → List OutPiece × Bool × List Char
  | 0, inCode, lang, _ => ([], inCode, lang)
  | _ + 1, inCode, lang, [] => ([], inCode, lang)
  | fuel + 1, inCode, lang, c :: rest =>
    if startsWithFence (c :: rest) then
      if inCode then
        -- closing fence: consume the marker, clear the language, emit the exit banner
        let r := scanF fuel false [] (rest.drop 2)
        (OutPiece.exitBanner :: r.1, r.2)
      else
        -- opening fence: consume the marker, read the language tag up to the
        -- next newline (trimmed), consume that newline, emit the enter banner
        let after := rest.drop 2
        let langT := trimChars (after.takeWhile (fun x => x ≠ nl))
        let rest' := dropNl (after.dropWhile (fun x => x ≠ nl))
        let r := scanF fuel true langT rest'
        (OutPiece.enterBanner langT :: r.1, r.2)
    else
      let r := scanF fuel inCode lang rest
      (OutPiece.ch inCode c :: r.1, r.2)

/-- The scan of `formatToken` over a buffer, i.e. `scanF` with its exact
iteration bound. -/
def scan (inCode : Bool) (lang : List Char) (buf : List Char) :
    List OutPiece × Bool × List Char :=
  scanF buf.length inCode lang buf

/-- `CodeBlockFormatter.formatToken(token)`: append the token to
`this.pending`, scan the whole buffer, and end with `this.pending = ''`. -/
def formatToken (s : FmtState) (token : List Char) : List OutPiece × FmtState :=
  let r := scan s.inCode s.currentLang (s.pending ++ token)
  (r.1, ⟨r.2.1, [], r.2.2⟩)

/-- Feed a list of deltas, in order, to a fresh formatter, concatenating the
outputs. -/
def feedAll (ds : List (List Char)) : List OutPiece × FmtState :=
  ds.foldl (fun acc d =>
    let r := formatToken acc.2 d
    (acc.1 ++ r.1, r.2)) ([], initFmt)

/-- The text of the "enter code block" banner
(`chalk.yellow` argument on the opening branch). -/
def enterText (lang : List Char) : List Char :=
  "\n┌── code".data ++
    (if lang = [] then [] else " (".data ++ lang ++ ")".data) ++
    " ─────────────────────────\n".data

/-- The text of the "exit code block" banner
(`chalk.yellow` argument on the closing branch). -/
def exitText : List Char :=
  "\n└──────────────────────────────────────────────\n".data

/-- The text of one output piece with styling codes removed. -/
def stripPiece : OutPiece → List Char
  | .enterBanner lang => enterText lang
  | .exitBanner => exitText
  | .ch _ c => [c]

/-- Rendered output with styling codes removed. -/
def strip (ps : List OutPiece) : List Char :=
  (ps.map stripPiece).flatten

/-- Characters emitted in prose style (`chalk.cyan`). -/
def prosePieces (s : String) : List OutPiece :=
  s.data.map (OutPiece.ch false)

/-- Characters emitted in code style (`chalk.reset`). -/
def codePieces (s : String) : List OutPiece :=
  s.data.map (OutPiece.ch true)

/-! ### Chunk Decoder (`buffer`, `split('\n')`, `lines.pop()`) -/

/-- `buffer.split('\n')` followed by `buffer = lines.pop()`: the complete
(newline-terminated) lines of a buffer, and the trailing unterminated
fragment. -/
def splitNl : List Char → List (List Char) × List Char
  | [] => ([], [])
  | c :: rest =>
    let r := splitNl rest
    if c = nl then ([] :: r.1, r.2)
    else
      match r.1 with
      | [] => ([], c :: r.2)
      | l :: ls => ((c :: l) :: ls, r.2)

/-- The complete lines delivered by the decoder when the chunks are fed in
order starting from carry-over buffer `buffer`; each chunk is appended to
the carried buffer, the complete lines are delivered, and the unterminated
tail is carried to the next chunk. -/
def deliveredFrom (buffer : List Char) : List (List Char) → List (List Char)
  | [] => []
  | chunk :: rest =>
    let p := splitNl (buffer ++ chunk)
    p.1 ++ deliveredFrom p.2 rest

/-- The unterminated fragment still buffered after all chunks were fed. -/
def leftoverFrom (buffer : List Char) : List (List Char) → List Char
  | [] => buffer
  | chunk :: rest => leftoverFrom (splitNl (buffer ++ chunk)).2 rest

/-- A delivered line with every complete line suffixed by the newline that
terminated it: used to state that the decoder drops no data. -/
def linesJoin (ls : List (List Char)) : List Char :=
  (ls.map (fun l => l ++ [nl])).flatten

/-! ### Event Frame Parser (the per-line handling in `streamChatOnce`) -/

/-- A parsed event-stream frame. -/
inductive StreamFrame where
  | delta (t : List Char)
  | terminator
  | unrecognized
deriving DecidableEq

/-- The literal terminator line `data: [DONE]`. -/
def doneLine : List Char := "data: [DONE]".data

/-- The data-frame marker `data: ` (the payload is `line.slice(6)`). -/
def dataMarker : List Char := "data: ".data

/-- The per-line frame interpretation of `streamChatOnce`, as a total
function: trim; an empty line is ignored; the literal `data: [DONE]` line
terminates; a `data: `-prefixed line yields the extracted content delta if
it is non-empty (`const token = data.choices?.[0]?.delta?.content || ''`);
anything else is ignored. -/
def parseFrame (extract : List Char → Option (List Char)) (raw : List Char) :
    StreamFrame :=
  let line := trimChars raw
  if line = [] then .unrecognized
  else if line = doneLine then .terminator
  else if dataMarker.isPrefixOf line then
    let token := (extract (line.drop 6)).getD []
    if token = [] then .unrecognized else .delta token
  else .unrecognized

/-- The frames produced by the decoder + parser pipeline over a chunk
sequence (one frame per delivered line). -/
def framesOfChunks (extract : List Char → Option (List Char))
    (chunks : List (List Char)) : List StreamFrame :=
  (deliveredFrom [] chunks).map (parseFrame extract)

/-- The content delta carried by one delivered line, when its frame is a
delta frame. -/
def lineDelta (extract : List Char → Option (List Char)) (raw : List Char) :
    Option (List Char) :=
  match parseFrame extract raw with
  | .delta t => some t
  | _ => none

/-- The content deltas delivered by the pipeline over a chunk sequence. -/
def deltasOf (extract : List Char → Option (List Char))
    (chunks : List (List Char)) : List (List Char) :=
  (deliveredFrom [] chunks).filterMap (lineDelta extract)

/-! ### Stream Attempt Executor (`streamChatOnce`) -/

/-- A conversation message role. -/
inductive Role where
  | system
  | user
  | assistant
deriving DecidableEq

/-- One conversation message (`{ role, content }`). -/
structure Message where
  role : Role
  content : List Char
deriving DecidableEq

/-- The result of one `streamChatOnce` invocation: `{ ok: false, status,
errorText }` on transport failure, `{ ok: true }` otherwise (absent fields
are `none`). -/
structure ExecResult where
  ok : Bool
  status : Option Nat
  errorText : Option (List Char)
deriving DecidableEq

/-- The transport-level response of one HTTP attempt: `res.ok`,
`res.status`, `res.body` (the stream of chunks, `none` when absent), and
the error text read by `res.text()` on failure. -/
structure HttpResponse where
  ok : Bool
  status : Nat
  body : Option (List (List Char))
  errorText : List Char
deriving DecidableEq

/-- The mutable state of the streaming loop of `streamChatOnce`: whether the
terminator was seen, the formatter state, the accumulated `reply`, and the
styled output written to the terminal so far. -/
structure PState where
  done : Bool
  fmt : FmtState
  reply : List Char
  out : List OutPiece
deriving DecidableEq

/-- The loop state at the top of `streamChatOnce`'s streaming phase. -/
def initPState : PState := ⟨false, initFmt, [], []⟩

/-- The inner `for (const raw of lines)` loop of `streamChatOnce`: trim each
line; skip empty lines; on `data: [DONE]` stop immediately; on a `data: `
line with a non-empty extracted token, format and write it and append it to
the reply; skip anything else. -/
def processLines (extract : List Char → Option (List Char)) :
    PState → List (List Char) → PState
  | st, [] => st
  | st, raw :: rest =>
    if st.done then st
    else
      let line := trimChars raw
      if line = [] then processLines extract st rest
      else if line = doneLine then { st with done := true }
      else if dataMarker.isPrefixOf line then
        let token := (extract (line.drop 6)).getD []
        if token = [] then processLines extract st rest
        else
          let r := formatToken st.fmt token
          processLines extract
            { st with fmt := r.2, reply := st.reply ++ token, out := st.out ++ r.1 }
            rest
      else processLines extract st rest

/-- One iteration of the inner line loop, as a state transformer: the state
reached after handling one raw line (used to restate `processLines` one
line at a time). -/
def stepLine (extract : List Char → Option (List Char)) (st : PState)
    (raw : List Char) : PState :=
  if st.done then st
  else
    let line := trimChars raw
    if line = [] then st
    else if line = doneLine then { st with done := true }
    else if dataMarker.isPrefixOf line then
      let token := (extract (line.drop 6)).getD []
      if token = [] then st
      else
        let r := formatToken st.fmt token
        { st with fmt := r.2, reply := st.reply ++ token, out := st.out ++ r.1 }
    else st

/-- The outer `for await (const chunk of res.body)` loop of
`streamChatOnce`: append each chunk to the carried buffer, take the
complete lines, keep the unterminated tail, and process the lines; once the
terminator was seen, stop consuming. -/
def processChunks (extract : List Char → Option (List Char)) :
    PState → List Char → List (List Char) → PState
  | st, _, [] => st
  | st, buffer, chunk :: rest =>
    if st.done then st
    else
      let p := splitNl (buffer ++ chunk)
      processChunks extract (processLines extract st p.1) p.2 rest

/-- `streamChatOnce`: on a non-ok response or an absent body, return
`{ ok: false, status, errorText }` with the conversation untouched and
nothing written; otherwise stream the body; on the terminator append the
accumulated reply as an assistant message; on stream exhaustion without a
terminator append the reply only if it is non-empty; return `{ ok: true }`.
The result is the attempt result, the updated conversation, and the styled
output written to the terminal. -/
def streamChatOnce (extract : List Char → Option (List Char))
    (msgs : List Message) (res : HttpResponse) :
    ExecResult × List Message × List OutPiece :=
  if !res.ok || res.body.isNone then
    (⟨false, some res.status, some res.errorText⟩, msgs, [])
  else
    let st := processChunks extract initPState [] (res.body.getD [])
    if st.done then
      (⟨true, none, none⟩, msgs ++ [⟨Role.assistant, st.reply⟩], st.out)
    else if st.reply = [] then
      (⟨true, none, none⟩, msgs, st.out)
    else
      (⟨true, none, none⟩, msgs ++ [⟨Role.assistant, st.reply⟩], st.out)

/-! ### Retry Controller (`askGPTStreamWithRetry`, `isRetriable`) -/

/-- `const TRANSIENT_CODES = new Set([429])`. -/
def TRANSIENT_CODES : List Nat := [429]

/-- `const MAX_RETRIES = 3`. -/
def MAX_RETRIES : Nat := 3

/-- `isRetriable(status)`: `TRANSIENT_CODES.has(status) || status >= 500`. -/
def isRetriable (status : Nat) : Bool :=
  TRANSIENT_CODES.contains status || decide (500 ≤ status)

/-- The outcome of one `askGPTStreamWithRetry` run: success, a reported
terminal failure with its status, or (unreachably) falling off the loop. -/
inductive RunOutcome where
  | success
  | failure (status : Nat)
  | exhausted
deriving DecidableEq

/-- Whether a run outcome is a reported terminal failure. -/
def isFailure : RunOutcome → Bool
  | .failure _ => true
  | _ => false

/-- The `for (let attempt = 0; attempt <= MAX_RETRIES; attempt++)` loop of
`askGPTStreamWithRetry`, with the executor abstracted as a function from
the attempt number and current conversation to an attempt result and
updated conversation.  `fuel` is the number of loop iterations still
allowed (`MAX_RETRIES + 1 - attempt`); the returned `Nat` counts executor
invocations. -/
def retryGo (exec : Nat → List Message → ExecResult × List Message) :
    Nat → Nat → List Message → RunOutcome × List Message × Nat
  | 0, _, msgs => (.exhausted, msgs, 0)
  | fuel + 1, attempt, msgs =>
    let p := exec attempt msgs
    if p.1.ok then (.success, p.2, 1)
    else
      let status := p.1.status.getD 0
      if !isRetriable status || attempt == MAX_RETRIES then
        (.failure status, p.2, 1)
      else
        let r := retryGo exec fuel (attempt + 1) p.2
        (r.1, r.2.1, r.2.2 + 1)

/-- The user message pushed by `askGPTStreamWithRetry` before its loop. -/
def userMsg (u : List Char) : Message := ⟨Role.user, u⟩

/-- `askGPTStreamWithRetry(userText)`: push the user message once, then run
the bounded retry loop from attempt 0. -/
def askGPTStreamWithRetry (exec : Nat → List Message → ExecResult × List Message)
    (msgs : List Message) (u : List Char) : RunOutcome × List Message × Nat :=
  retryGo exec (MAX_RETRIES + 1) 0 (msgs ++ [userMsg u])

/-- The number of user-role messages in a conversation. -/
def userCount (msgs : List Message) : Nat :=
  msgs.countP (fun m => m.role == Role.user)

/-! ### Formatter lemmas -/

theorem startsWithFence_cons_eq_false {c : Char} (rest : List Char) (h : c ≠ tick) :
    startsWithFence (c :: rest) = false := by
  cases rest with
  | nil => rfl
  | cons b t =>
    cases t with
    | nil => rfl
    | cons d t' => simp [startsWithFence, h]

theorem scanF_noTick (t : List Char) (inCode : Bool) (lang : List Char)
    (h : tick ∉ t) :
    scanF t.length inCode lang t = (t.map (OutPiece.ch inCode), inCode, lang) := by
  induction t generalizing inCode lang with
  | nil => rfl
  | cons c rest ih =>
    have hc : c ≠ tick := fun e => h (e ▸ List.mem_cons_self c rest)
    have hr : tick ∉ rest := fun m => h (List.mem_cons_of_mem _ m)
    simp [List.length_cons, scanF, startsWithFence_cons_eq_false rest hc,
      ih inCode lang hr]

theorem formatToken_noTick (s : FmtState) (t : List Char)
    (hp : s.pending = []) (h : tick ∉ t) :
    formatToken s t = (t.map (OutPiece.ch s.inCode), ⟨s.inCode, [], s.currentLang⟩) := by
  simp [formatToken, scan, hp, scanF_noTick t s.inCode s.currentLang h]

theorem feedFold_noTick (ds : List (List Char)) (out : List OutPiece)
    (b : Bool) (lang : List Char) (h : ∀ d ∈ ds, tick ∉ d) :
    ds.foldl (fun acc d =>
        let r := formatToken acc.2 d
        (acc.1 ++ r.1, r.2)) (out, ⟨b, [], lang⟩) =
      (out ++ ds.flatten.map (OutPiece.ch b), ⟨b, [], lang⟩) := by
  induction ds generalizing out with
  | nil => simp
  | cons d rest ih =>
    have hd : tick ∉ d := h d (List.mem_cons_self _ _)
    have hr : ∀ x ∈ rest, tick ∉ x := fun x m => h x (List.mem_cons_of_mem _ m)
    simp only [List.foldl_cons, formatToken_noTick ⟨b, [], lang⟩ d rfl hd]
    rw [ih (out ++ d.map (OutPiece.ch b)) hr]
    simp

/-! ### Claim C1: fence split invariance -/

/-- C1, counterexample.  The message consisting of a single fence marker,
split into the deltas `` ` `` and `` `` ``, renders (styling removed) as
three literal backticks, which differs from the enter-code-block banner
rendered when the whole message is fed as one delta; moreover after the
first call the formatter's `pending` buffer is empty — the lone backtick
was consumed and emitted, not retained. -/
theorem fence_split_invariance_counterexample :
    strip (feedAll ["`".data, "``".data]).1 ≠ strip (feedAll ["```".data]).1 ∧
    ((formatToken initFmt "`".data).2).pending = [] ∧ "`".data ≠ [] := by
  refine ⟨?_, rfl, ?_⟩ <;> decide

/-- C1, amended.  `formatToken` never retains anything in the pending
buffer: every call consumes and emits the whole buffer (so a trailing
strict prefix of the fence marker is emitted as literal styled text rather
than retained), and consequently fence split invariance fails for splits
falling inside a fence marker; it does hold for every way of splitting a
message that contains no backtick character. -/
theorem fence_split_invariance_amended :
    (∀ (s : FmtState) (t : List Char), ((formatToken s t).2).pending = []) ∧
    (∀ ds : List (List Char), (∀ d ∈ ds, tick ∉ d) →
      strip (feedAll ds).1 = strip (feedAll [ds.flatten]).1) := by
  constructor
  · intro s t; rfl
  · intro ds h
    have hflat : tick ∉ ds.flatten := by
      intro m
      obtain ⟨l, hl, hm⟩ := List.mem_flatten.1 m
      exact h l hl hm
    have h1 := feedFold_noTick ds [] false [] h
    have h2 := feedFold_noTick [ds.flatten] [] false []
      (by intro d m; rw [List.mem_singleton] at m; exact m ▸ hflat)
    unfold feedAll initFmt
    rw [h1, h2]
    simp

/-- C1, witness for the amended theorem: instantiated at the split of the
message `ab` into deltas `a` and `b` (no backticks), and at a concrete
`formatToken` call. -/
theorem fence_split_invariance_amended_witness :
    strip (feedAll ["a".data, "b".data]).1 =
      strip (feedAll [(["a".data, "b".data] : List (List Char)).flatten]).1 ∧
    ((formatToken initFmt "x".data).2).pending = [] :=
  ⟨fence_split_invariance_amended.2 ["a".data, "b".data] (by decide),
   fence_split_invariance_amended.1 initFmt "x".data⟩

/-! ### Claim C2: the worked streaming example -/

/-- C2, counterexample.  On the input deltas `["Here:\n```py",
"thon\nprint(1)\n```", "\ndone"]` the formatter emits exactly one
enter-code-block banner, but its language tag is `py`, not `python`: the
language tag is cut at the end of the first delta, so no banner tagged
`python` appears in the output. -/
theorem streaming_example_counterexample :
    ((feedAll ["Here:\n```py".data, "thon\nprint(1)\n```".data, "\ndone".data]).1.countP
        (fun p => match p with | OutPiece.enterBanner _ => true | _ => false)) = 1 ∧
    OutPiece.enterBanner "python".data ∉
      (feedAll ["Here:\n```py".data, "thon\nprint(1)\n```".data, "\ndone".data]).1 ∧
    OutPiece.enterBanner "py".data ∈
      (feedAll ["Here:\n```py".data, "thon\nprint(1)\n```".data, "\ndone".data]).1 := by
  refine ⟨?_, ?_, ?_⟩ <;> decide

/-- C2, amended.  On the input deltas `["Here:\n```py", "thon\nprint(1)\n```",
"\ndone"]` the output is: `Here:\n` in prose style, exactly one
enter-code-block banner tagged `py` (the tag is cut at the first delta
boundary), the text `thon\nprint(1)\n` — including `print(1)` — in code
style, exactly one exit-code-block banner, then `\ndone` in prose style. -/
theorem streaming_example_amended :
    (feedAll ["Here:\n```py".data, "thon\nprint(1)\n```".data, "\ndone".data]).1 =
      prosePieces "Here:\n" ++ [OutPiece.enterBanner "py".data] ++
        codePieces "thon\nprint(1)\n" ++ [OutPiece.exitBanner] ++
        prosePieces "\ndone" := by
  decide

/-! ### Chunk Decoder lemmas -/

theorem splitNl_append (x y : List Char) :
    splitNl (x ++ y) =
      ((splitNl x).1 ++ (splitNl ((splitNl x).2 ++ y)).1,
       (splitNl ((splitNl x).2 ++ y)).2) := by
  induction x with
  | nil => simp [splitNl]
  | cons c rest ih =>
    rcases h1 : splitNl rest with ⟨ls1, lo1⟩
    rcases h2 : splitNl (lo1 ++ y) with ⟨ls2, lo2⟩
    rw [h1, h2] at ih
    by_cases hc : c = nl
    · subst hc
      rw [List.cons_append]
      simp only [splitNl, ih, h1, if_pos rfl]
      simp [h2]
    · rw [List.cons_append]
      simp only [splitNl, ih, h1, if_neg hc]
      cases ls1 with
      | nil =>
        simp only [List.nil_append]
        simp only [List.cons_append, splitNl, h2, if_neg hc]
        cases ls2 <;> simp [h2]
      | cons l ls => simp [h2]

theorem nl_not_mem_leftover (s : List Char) : nl ∉ (splitNl s).2 := by
  induction s with
  | nil => simp [splitNl]
  | cons c rest ih =>
    by_cases hc : c = nl
    · simpa [splitNl, hc] using ih
    · cases hrest : (splitNl rest).1 with
      | nil =>
        simp only [splitNl, if_neg hc, hrest]
        intro m
        rcases List.mem_cons.1 m with e | m
        · exact hc e.symm
        · exact ih m
      | cons l ls => simpa [splitNl, if_neg hc, hrest] using ih

theorem splitNl_of_not_mem (s : List Char) (h : nl ∉ s) : splitNl s = ([], s) := by
  induction s with
  | nil => rfl
  | cons c rest ih =>
    have hc : c ≠ nl := fun e => h (e ▸ List.mem_cons_self c rest)
    have hr : nl ∉ rest := fun m => h (List.mem_cons_of_mem _ m)
    simp [splitNl, hc, ih hr]

theorem splitNl_reassemble (s : List Char) :
    linesJoin (splitNl s).1 ++ (splitNl s).2 = s := by
  induction s with
  | nil => rfl
  | cons c rest ih =>
    rcases h1 : splitNl rest with ⟨ls1, lo1⟩
    rw [h1] at ih
    by_cases hc : c = nl
    · subst hc
      simp only [splitNl, h1, if_pos rfl]
      simpa [linesJoin] using ih
    · simp only [splitNl, h1, if_neg hc]
      cases ls1 with
      | nil =>
        simp only [linesJoin, List.map_nil, List.flatten_nil, List.nil_append] at ih
        simp [linesJoin, ih]
      | cons l ls =>
        simp only [linesJoin, List.map_cons, List.flatten_cons] at ih ⊢
        rw [← ih]
        simp

theorem deliveredFrom_eq (cs : List (List Char)) :
    ∀ b : List Char, nl ∉ b →
      deliveredFrom b cs = (splitNl (b ++ cs.flatten)).1 ∧
      leftoverFrom b cs = (splitNl (b ++ cs.flatten)).2 := by
  induction cs with
  | nil =>
    intro b hb
    simp [deliveredFrom, leftoverFrom, splitNl_of_not_mem b hb]
  | cons c rest ih =>
    intro b hb
    have h2 := ih (splitNl (b ++ c)).2 (nl_not_mem_leftover _)
    have happ := splitNl_append (b ++ c) rest.flatten
    constructor
    · rw [deliveredFrom, h2.1]
      rw [List.flatten_cons, ← List.append_assoc, happ]
    · rw [leftoverFrom, h2.2]
      rw [List.flatten_cons, ← List.append_assoc, happ]

/-! ### Streaming-loop lemmas -/

theorem processLines_done (extract : List Char → Option (List Char))
    (st : PState) (l : List (List Char)) (h : st.done = true) :
    processLines extract st l = st := by
  cases l with
  | nil => rfl
  | cons raw rest => simp [processLines, h]

theorem processLines_cons (extract : List Char → Option (List Char))
    (st : PState) (raw : List Char) (rest : List (List Char)) :
    processLines extract st (raw :: rest) =
      processLines extract (stepLine extract st raw) rest := by
  by_cases hd : st.done = true
  · rw [processLines_done extract st (raw :: rest) hd]
    simp only [stepLine, if_pos hd]
    rw [processLines_done extract st rest hd]
  · simp only [processLines, stepLine, if_neg hd]
    by_cases h1 : trimChars raw = []
    · simp only [if_pos h1]
    · simp only [if_neg h1]
      by_cases h2 : trimChars raw = doneLine
      · simp only [if_pos h2]
        exact (processLines_done extract _ rest rfl).symm
      · simp only [if_neg h2]
        by_cases h3 : dataMarker.isPrefixOf (trimChars raw) = true
        · simp only [if_pos h3]
          by_cases h4 : (extract ((trimChars raw).drop 6)).getD [] = []
          · simp only [if_pos h4]
          · simp only [if_neg h4]
        · simp only [if_neg h3]

theorem processLines_append (extract : List Char → Option (List Char))
    (a b : List (List Char)) :
    ∀ st, processLines extract st (a ++ b) =
      processLines extract (processLines extract st a) b := by
  induction a with
  | nil => intro st; rfl
  | cons raw a' ih =>
    intro st
    rw [List.cons_append, processLines_cons, processLines_cons, ih]

theorem processChunks_eq (extract : List Char → Option (List Char))
    (cs : List (List Char)) :
    ∀ (st : PState) (buffer : List Char),
      processChunks extract st buffer cs =
        processLines extract st (deliveredFrom buffer cs) := by
  induction cs with
  | nil => intro st buffer; rfl
  | cons c rest ih =>
    intro st buffer
    by_cases hd : st.done = true
    · simp only [processChunks, if_pos hd, deliveredFrom]
      rw [processLines_append, processLines_done extract st _ hd,
        processLines_done extract st _ hd]
    · simp only [processChunks, if_neg hd, deliveredFrom]
      rw [ih, processLines_append]

theorem stepLine_of_unrecognized (extract : List Char → Option (List Char))
    (st : PState) (raw : List Char) (h : st.done = false)
    (hp : parseFrame extract raw = .unrecognized) :
    stepLine extract st raw = st := by
  have hd : ¬ st.done = true := by rw [h]; exact Bool.false_ne_true
  simp only [stepLine, if_neg hd]
  by_cases h1 : trimChars raw = []
  · simp only [if_pos h1]
  · by_cases h2 : trimChars raw = doneLine
    · rw [parseFrame] at hp
      simp only [if_neg h1, if_pos h2] at hp
      exact StreamFrame.noConfusion hp
    · by_cases h3 : dataMarker.isPrefixOf (trimChars raw) = true
      · by_cases h4 : (extract ((trimChars raw).drop 6)).getD [] = []
        · simp only [if_neg h1, if_neg h2, if_pos h3, if_pos h4]
        · rw [parseFrame] at hp
          simp only [if_neg h1, if_neg h2, if_pos h3, if_neg h4] at hp
          exact StreamFrame.noConfusion hp
      · simp only [if_neg h1, if_neg h2, if_neg h3]

theorem stepLine_of_terminator (extract : List Char → Option (List Char))
    (st : PState) (raw : List Char) (h : st.done = false)
    (hp : parseFrame extract raw = .terminator) :
    stepLine extract st raw = { st with done := true } := by
  have hd : ¬ st.done = true := by rw [h]; exact Bool.false_ne_true
  simp only [stepLine, if_neg hd]
  by_cases h1 : trimChars raw = []
  · rw [parseFrame] at hp
    simp only [if_pos h1] at hp
    exact StreamFrame.noConfusion hp
  · by_cases h2 : trimChars raw = doneLine
    · simp only [if_neg h1, if_pos h2]
    · rw [parseFrame] at hp
      by_cases h3 : dataMarker.isPrefixOf (trimChars raw) = true
      · by_cases h4 : (extract ((trimChars raw).drop 6)).getD [] = []
        · simp only [if_neg h1, if_neg h2, if_pos h3, if_pos h4] at hp
          exact StreamFrame.noConfusion hp
        · simp only [if_neg h1, if_neg h2, if_pos h3, if_neg h4] at hp
          exact StreamFrame.noConfusion hp
      · simp only [if_neg h1, if_neg h2, if_neg h3] at hp
        exact StreamFrame.noConfusion hp

theorem stepLine_of_delta (extract : List Char → Option (List Char))
    (st : PState) (raw : List Char) (t : List Char) (h : st.done = false)
    (hp : parseFrame extract raw = .delta t) :
    stepLine extract st raw =
      { st with
          fmt := (formatToken st.fmt t).2
          reply := st.reply ++ t
          out := st.out ++ (formatToken st.fmt t).1 } := by
  have hd : ¬ st.done = true := by rw [h]; exact Bool.false_ne_true
  simp only [stepLine, if_neg hd]
  rw [parseFrame] at hp
  by_cases h1 : trimChars raw = []
  · simp only [if_pos h1] at hp
    exact StreamFrame.noConfusion hp
  · by_cases h2 : trimChars raw = doneLine
    · simp only [if_neg h1, if_pos h2] at hp
      exact StreamFrame.noConfusion hp
    · by_cases h3 : dataMarker.isPrefixOf (trimChars raw) = true
      · by_cases h4 : (extract ((trimChars raw).drop 6)).getD [] = []
        · simp only [if_neg h1, if_neg h2, if_pos h3, if_pos h4] at hp
          exact StreamFrame.noConfusion hp
        · simp only [if_neg h1, if_neg h2, if_pos h3, if_neg h4] at hp
          simp only [StreamFrame.delta.injEq] at hp
          rw [hp] at h4
          simp only [if_neg h1, if_neg h2, if_pos h3, hp, if_neg h4]
      · simp only [if_neg h1, if_neg h2, if_neg h3] at hp
        exact StreamFrame.noConfusion hp

theorem processLines_noTerm (extract : List Char → Option (List Char))
    (lines : List (List Char)) :
    ∀ st : PState, st.done = false →
      (∀ raw ∈ lines, parseFrame extract raw ≠ .terminator) →
      (processLines extract st lines).done = false ∧
      (processLines extract st lines).reply =
        st.reply ++ (lines.filterMap (lineDelta extract)).flatten := by
  induction lines with
  | nil => intro st h _; simp [processLines, h]
  | cons raw rest ih =>
    intro st h hterm
    have hr : ∀ x ∈ rest, parseFrame extract x ≠ .terminator :=
      fun x m => hterm x (List.mem_cons_of_mem _ m)
    have hhead := hterm raw (List.mem_cons_self _ _)
    rw [processLines_cons, List.filterMap_cons]
    cases hpf : parseFrame extract raw with
    | terminator => exact absurd hpf hhead
    | unrecognized =>
      have hld : lineDelta extract raw = none := by simp [lineDelta, hpf]
      rw [stepLine_of_unrecognized extract st raw h hpf, hld]
      exact ih st h hr
    | delta t =>
      have hld : lineDelta extract raw = some t := by simp [lineDelta, hpf]
      rw [stepLine_of_delta extract st raw t h hpf, hld]
      have hnext := ih
        { st with
            fmt := (formatToken st.fmt t).2
            reply := st.reply ++ t
            out := st.out ++ (formatToken st.fmt t).1 } h hr
      refine ⟨hnext.1, ?_⟩
      rw [hnext.2]
      simp [List.append_assoc]

/-! ### Claim C3: the decoder and the final unterminated fragment -/

/-- C3, counterexample.  There is no final flush: a body whose last data
line lacks a trailing newline loses that line — `streamChatOnce` over the
single chunk `data: hi` (no terminating newline, with an extractor that
returns the payload itself) appends no assistant message, while the same
chunk with a trailing newline yields the assistant message `hi`.  The
final partial line is discarded, not delivered. -/
theorem decoder_flush_counterexample :
    (streamChatOnce (fun p => some p) []
        ⟨true, 200, some ["data: hi".data], []⟩).2.1 = [] ∧
    (streamChatOnce (fun p => some p) []
        ⟨true, 200, some ["data: hi\n".data], []⟩).2.1 =
      [⟨Role.assistant, "hi".data⟩] :=
  ⟨by decide, by decide⟩

/-- C3, amended.  The Chunk Decoder retains the unterminated trailing
fragment across feed calls and loses or reorders nothing: the delivered
complete lines (each with its terminating newline restored) followed by
the retained fragment reassemble the input chunk stream exactly.  However
there is no final flush: the streaming loop consumes exactly the delivered
complete lines — the fragment still buffered at stream end is never
handed to the frame parser, so a final line lacking a newline terminator
is discarded. -/
theorem decoder_no_flush_amended :
    (∀ chunks : List (List Char),
      linesJoin (deliveredFrom [] chunks) ++ leftoverFrom [] chunks =
        chunks.flatten) ∧
    (∀ (extract : List Char → Option (List Char)) (st : PState)
        (buffer : List Char) (chunks : List (List Char)),
      processChunks extract st buffer chunks =
        processLines extract st (deliveredFrom buffer chunks)) := by
  constructor
  · intro chunks
    have h := deliveredFrom_eq chunks [] (by simp)
    rw [h.1, h.2]
    simpa using splitNl_reassemble chunks.flatten
  · intro extract st buffer chunks
    exact processChunks_eq extract chunks st buffer

/-! ### Claim C4: chunk-boundary invariance -/

/-- C4.  Chunk-boundary invariance: for every content stream and every way
of splitting it into an ordered sequence of chunks, the Chunk Decoder plus
Event Frame Parser pipeline produces exactly the same ordered sequence of
frames as feeding the whole content as a single chunk — for every payload
extractor. -/
theorem chunk_boundary_invariance (extract : List Char → Option (List Char))
    (chunks : List (List Char)) :
    framesOfChunks extract chunks = framesOfChunks extract [chunks.flatten] := by
  unfold framesOfChunks
  have h1 := (deliveredFrom_eq chunks [] (by simp)).1
  have h2 := (deliveredFrom_eq [chunks.flatten] [] (by simp)).1
  rw [h1, h2]
  simp

/-! ### Retry-loop lemmas -/

theorem isRetriable_iff (s : Nat) : isRetriable s = true ↔ (s = 429 ∨ 500 ≤ s) := by
  unfold isRetriable TRANSIENT_CODES
  simp [List.contains]

theorem retryGo_count_le (exec : Nat → List Message → ExecResult × List Message) :
    ∀ (fuel attempt : Nat) (msgs : List Message),
      (retryGo exec fuel attempt msgs).2.2 ≤ fuel := by
  intro fuel
  induction fuel with
  | zero => intro a m; simp [retryGo]
  | succ f ih =>
    intro a m
    simp only [retryGo]
    by_cases hok : (exec a m).1.ok = true
    · simp only [if_pos hok]
      omega
    · simp only [if_neg hok]
      by_cases hc : (!isRetriable ((exec a m).1.status.getD 0) || a == MAX_RETRIES) = true
      · simp only [if_pos hc]
        omega
      · simp only [if_neg hc]
        have := ih (a + 1) (exec a m).2
        omega

theorem retryGo_allFail (exec : Nat → List Message → ExecResult × List Message)
    (h : ∀ a m, ((exec a m).1).ok = false ∧
      isRetriable (((exec a m).1).status.getD 0) = true) :
    ∀ (fuel attempt : Nat) (msgs : List Message),
      1 ≤ fuel → attempt + fuel = MAX_RETRIES + 1 →
      (retryGo exec fuel attempt msgs).2.2 = fuel ∧
      isFailure (retryGo exec fuel attempt msgs).1 = true := by
  intro fuel
  induction fuel with
  | zero => intro a m h1 _; omega
  | succ f ih =>
    intro a m _ h2
    have hok : ¬ ((exec a m).1.ok = true) := by
      rw [(h a m).1]; exact Bool.false_ne_true
    simp only [retryGo, if_neg hok]
    by_cases hA : a = MAX_RETRIES
    · have hf : f = 0 := by unfold MAX_RETRIES at h2 hA; omega
      subst hf
      have hc : (!isRetriable ((exec a m).1.status.getD 0) || a == MAX_RETRIES) = true := by
        simp [hA]
      simp only [if_pos hc]
      constructor <;> trivial
    · have hc : ¬ ((!isRetriable ((exec a m).1.status.getD 0) || a == MAX_RETRIES) = true) := by
        simp [(h a m).2, hA]
      simp only [if_neg hc]
      have hf : 1 ≤ f := by unfold MAX_RETRIES at h2 hA; omega
      have hnext := ih (a + 1) (exec a m).2 hf (by unfold MAX_RETRIES at h2 ⊢; omega)
      refine ⟨?_, ?_⟩
      · simp only [hnext.1]
      · simpa using hnext.2

theorem retryGo_userCount (exec : Nat → List Message → ExecResult × List Message)
    (h : ∀ a m, userCount ((exec a m).2) = userCount m) :
    ∀ (fuel attempt : Nat) (msgs : List Message),
      userCount ((retryGo exec fuel attempt msgs).2.1) = userCount msgs := by
  intro fuel
  induction fuel with
  | zero => intro a m; simp [retryGo]
  | succ f ih =>
    intro a m
    simp only [retryGo]
    by_cases hok : (exec a m).1.ok = true
    · simp only [if_pos hok]
      exact h a m
    · simp only [if_neg hok]
      by_cases hc : (!isRetriable ((exec a m).1.status.getD 0) || a == MAX_RETRIES) = true
      · simp only [if_pos hc]
        exact h a m
      · simp only [if_neg hc]
        rw [ih (a + 1) (exec a m).2, h a m]

/-! ### Claim C5: the retry bound -/

/-- C5.  With `MAX_RETRIES = 3`: if every executor invocation returns a
failure classified retriable, the loop invokes the executor exactly 4
times and reports a terminal failure; if the first invocation returns a
non-retriable failure, the executor is invoked exactly once (with a
terminal failure report); and in every run the executor is invoked at most
`MAX_RETRIES + 1` times. -/
theorem retry_bound (exec : Nat → List Message → ExecResult × List Message)
    (msgs : List Message) (u : List Char) :
    ((∀ a m, ((exec a m).1).ok = false ∧
        isRetriable (((exec a m).1).status.getD 0) = true) →
      (askGPTStreamWithRetry exec msgs u).2.2 = 4 ∧
      isFailure (askGPTStreamWithRetry exec msgs u).1 = true) ∧
    ((((exec 0 (msgs ++ [userMsg u])).1).ok = false ∧
        isRetriable (((exec 0 (msgs ++ [userMsg u])).1).status.getD 0) = false) →
      (askGPTStreamWithRetry exec msgs u).2.2 = 1 ∧
      isFailure (askGPTStreamWithRetry exec msgs u).1 = true) ∧
    (askGPTStreamWithRetry exec msgs u).2.2 ≤ MAX_RETRIES + 1 := by
  refine ⟨?_, ?_, ?_⟩
  · intro h
    have := retryGo_allFail exec h (MAX_RETRIES + 1) 0 (msgs ++ [userMsg u])
      (by unfold MAX_RETRIES; omega) (by omega)
    exact ⟨this.1, this.2⟩
  · rintro ⟨hok, hret⟩
    have hok' : ¬ ((exec 0 (msgs ++ [userMsg u])).1.ok = true) := by
      rw [hok]; exact Bool.false_ne_true
    have hc : (!isRetriable ((exec 0 (msgs ++ [userMsg u])).1.status.getD 0) ||
        (0 : Nat) == MAX_RETRIES) = true := by
      simp [hret]
    unfold askGPTStreamWithRetry
    simp only [retryGo, if_neg hok', if_pos hc]
    constructor <;> trivial
  · exact retryGo_count_le exec (MAX_RETRIES + 1) 0 (msgs ++ [userMsg u])

/-- C5, witness: an executor that always fails with status 429 (retriable)
yields 4 invocations and a terminal failure; one that fails with status
400 (non-retriable) on attempt 0 yields exactly 1 invocation. -/
theorem retry_bound_witness :
    ((askGPTStreamWithRetry (fun _ m => (⟨false, some 429, none⟩, m)) [] "q".data).2.2 = 4 ∧
      isFailure (askGPTStreamWithRetry (fun _ m => (⟨false, some 429, none⟩, m)) [] "q".data).1 = true) ∧
    ((askGPTStreamWithRetry (fun _ m => (⟨false, some 400, none⟩, m)) [] "q".data).2.2 = 1 ∧
      isFailure (askGPTStreamWithRetry (fun _ m => (⟨false, some 400, none⟩, m)) [] "q".data).1 = true) :=
  ⟨(retry_bound (fun _ m => (⟨false, some 429, none⟩, m)) [] "q".data).1
      (fun _ _ => ⟨rfl, rfl⟩),
   (retry_bound (fun _ m => (⟨false, some 400, none⟩, m)) [] "q".data).2.1
      ⟨rfl, rfl⟩⟩

/-! ### Claim C6: the single user-append guarantee -/

/-- C6.  A single `streamChatOnce` attempt never changes the number of
user-role messages (it appends at most one assistant message), and one
`askGPTStreamWithRetry` run over any executor that preserves the user
count — however many attempts it takes and however it ends — appends
exactly one user message to the conversation. -/
theorem single_user_append :
    (∀ (extract : List Char → Option (List Char)) (m : List Message)
        (res : HttpResponse),
      userCount ((streamChatOnce extract m res).2.1) = userCount m) ∧
    (∀ (exec : Nat → List Message → ExecResult × List Message)
        (msgs : List Message) (u : List Char),
      (∀ a m, userCount ((exec a m).2) = userCount m) →
      userCount ((askGPTStreamWithRetry exec msgs u).2.1) = userCount msgs + 1) := by
  have hass : ∀ (c : List Char) (m : List Message),
      userCount (m ++ [⟨Role.assistant, c⟩]) = userCount m := by
    intro c m
    unfold userCount
    rw [List.countP_append]
    rfl
  constructor
  · intro extract m res
    unfold streamChatOnce
    by_cases hfail : (!res.ok || res.body.isNone) = true
    · rw [if_pos hfail]
    · rw [if_neg hfail]
      by_cases hdone : (processChunks extract initPState [] (res.body.getD [])).done = true
      · simp only [if_pos hdone]
        exact hass _ m
      · simp only [if_neg hdone]
        by_cases hrep : (processChunks extract initPState [] (res.body.getD [])).reply = []
        · simp only [if_pos hrep]
        · simp only [if_neg hrep]
          exact hass _ m
  · intro exec msgs u h
    unfold askGPTStreamWithRetry
    rw [retryGo_userCount exec h]
    unfold userCount
    rw [List.countP_append]
    rfl

/-- C6, witness: instantiated with an executor that succeeds immediately
and leaves the conversation unchanged, starting from the empty
conversation. -/
theorem single_user_append_witness :
    userCount ((askGPTStreamWithRetry (fun _ m => (⟨true, none, none⟩, m))
      [] "hi".data).2.1) = userCount ([] : List Message) + 1 :=
  single_user_append.2 (fun _ m => (⟨true, none, none⟩, m)) [] "hi".data
    (fun _ _ => rfl)

/-! ### Claim C8: failure classification -/

/-- C8.  A failure is classified retriable exactly when its status is 429
or at least 500, and a failed attempt whose status is neither (for
example a 400 client error, or any unknown status) ends the run at that
attempt with a terminal failure report — it is never retried, at any
attempt number and with any fuel remaining. -/
theorem failure_classification :
    (∀ s : Nat, isRetriable s = true ↔ (s = 429 ∨ 500 ≤ s)) ∧
    (∀ (exec : Nat → List Message → ExecResult × List Message)
        (fuel attempt : Nat) (msgs : List Message),
      ((exec attempt msgs).1).ok = false →
      ¬(((exec attempt msgs).1).status.getD 0 = 429 ∨
        500 ≤ ((exec attempt msgs).1).status.getD 0) →
      retryGo exec (fuel + 1) attempt msgs =
        (.failure (((exec attempt msgs).1).status.getD 0), (exec attempt msgs).2, 1)) := by
  refine ⟨isRetriable_iff, ?_⟩
  intro exec fuel attempt msgs hok hns
  have hok' : ¬ ((exec attempt msgs).1.ok = true) := by
    rw [hok]; exact Bool.false_ne_true
  have hretf : isRetriable (((exec attempt msgs).1).status.getD 0) = false := by
    rcases hb : isRetriable (((exec attempt msgs).1).status.getD 0) with _ | _
    · rfl
    · exact absurd ((isRetriable_iff _).1 hb) hns
  have hc : (!isRetriable (((exec attempt msgs).1).status.getD 0) ||
      attempt == MAX_RETRIES) = true := by
    simp [hretf]
  simp only [retryGo, if_neg hok', if_pos hc]

/-- C8, witness: a status-400 failure at attempt 0 is reported as terminal
after a single invocation. -/
theorem failure_classification_witness :
    retryGo (fun _ m => (⟨false, some 400, none⟩, m)) 1 0 [] =
      (.failure 400, [], 1) :=
  failure_classification.2 (fun _ m => (⟨false, some 400, none⟩, m)) 0 0 []
    rfl (by decide)

/-! ### Claim C10: an absent status is non-retriable -/

/-- C10.  If the first attempt returns `ok = false` with no HTTP status at
all, the controller substitutes status 0, which is not retriable, so the
executor is invoked exactly once and the run ends immediately with a
terminal failure report carrying status 0. -/
theorem missing_status_terminal (exec : Nat → List Message → ExecResult × List Message)
    (msgs : List Message) (u : List Char) (et : Option (List Char))
    (m' : List Message)
    (h : exec 0 (msgs ++ [userMsg u]) = (⟨false, none, et⟩, m')) :
    askGPTStreamWithRetry exec msgs u = (.failure 0, m', 1) ∧
    isRetriable 0 = false := by
  refine ⟨?_, rfl⟩
  unfold askGPTStreamWithRetry
  simp only [retryGo, h]
  simp [isRetriable, TRANSIENT_CODES]

/-- C10, witness: a concrete executor failing with an absent status field. -/
theorem missing_status_terminal_witness :
    askGPTStreamWithRetry (fun _ m => (⟨false, none, none⟩, m)) [] "q".data =
      (.failure 0, [userMsg "q".data], 1) ∧
    isRetriable 0 = false :=
  missing_status_terminal (fun _ m => (⟨false, none, none⟩, m)) [] "q".data
    none ([] ++ [userMsg "q".data]) rfl

/-! ### Claim C9: transport-failure atomicity -/

/-- C9.  Whenever the HTTP response is not successful or carries no body,
`streamChatOnce` returns `ok = false` carrying the HTTP status and the
error body, the conversation is unchanged, and no styled assistant output
is emitted. -/
theorem transport_failure_atomic (extract : List Char → Option (List Char))
    (msgs : List Message) (res : HttpResponse)
    (h : res.ok = false ∨ res.body = none) :
    streamChatOnce extract msgs res =
      (⟨false, some res.status, some res.errorText⟩, msgs, []) := by
  unfold streamChatOnce
  rcases h with h | h
  · rw [h]
    simp
  · rw [h]
    simp

/-- C9, witness: a 404 response with no body leaves the empty conversation
untouched and reports the status and error body. -/
theorem transport_failure_atomic_witness :
    streamChatOnce (fun p => some p) [] ⟨false, 404, none, "err".data⟩ =
      (⟨false, some 404, some "err".data⟩, [], []) :=
  transport_failure_atomic (fun p => some p) [] ⟨false, 404, none, "err".data⟩
    (Or.inl rfl)

/-! ### Claim C7: partial-output preservation -/

/-- C7.  If the transport response is successful and its body delivers
content deltas but no terminator frame, then `streamChatOnce` returns
`{ ok: true }` and appends exactly one assistant message whose content is
the in-order concatenation of the delivered deltas; consequently the
retry controller treats the run as a success after exactly one executor
invocation (no retry, no failure report). -/
theorem partial_output_preserved (extract : List Char → Option (List Char))
    (msgs : List Message) (res : HttpResponse) (chunks : List (List Char))
    (u : List Char)
    (hok : res.ok = true) (hb : res.body = some chunks)
    (ht : StreamFrame.terminator ∉ framesOfChunks extract chunks)
    (hj : (deltasOf extract chunks).flatten ≠ []) :
    (streamChatOnce extract msgs res).1 = ⟨true, none, none⟩ ∧
    (streamChatOnce extract msgs res).2.1 =
      msgs ++ [⟨Role.assistant, (deltasOf extract chunks).flatten⟩] ∧
    (askGPTStreamWithRetry
        (fun _ m => ((streamChatOnce extract m res).1, (streamChatOnce extract m res).2.1))
        msgs u).1 = RunOutcome.success ∧
    (askGPTStreamWithRetry
        (fun _ m => ((streamChatOnce extract m res).1, (streamChatOnce extract m res).2.1))
        msgs u).2.2 = 1 := by
  have hterm : ∀ raw ∈ deliveredFrom [] chunks,
      parseFrame extract raw ≠ StreamFrame.terminator := by
    intro raw hm e
    refine ht ?_
    unfold framesOfChunks
    exact e ▸ List.mem_map_of_mem (parseFrame extract) hm
  have hPL := processLines_noTerm extract (deliveredFrom [] chunks) initPState rfl hterm
  have hPC := processChunks_eq extract chunks initPState []
  have hrep : (processChunks extract initPState [] chunks).reply =
      (deltasOf extract chunks).flatten := by
    rw [hPC, hPL.2]
    simp [deltasOf, initPState]
  have hdone : (processChunks extract initPState [] chunks).done = false := by
    rw [hPC]
    exact hPL.1
  have hmain : ∀ m : List Message,
      streamChatOnce extract m res =
        (⟨true, none, none⟩,
         m ++ [⟨Role.assistant, (deltasOf extract chunks).flatten⟩],
         (processChunks extract initPState [] chunks).out) := by
    intro m
    have hcond : (!res.ok || res.body.isNone) = false := by
      rw [hok, hb]
      rfl
    unfold streamChatOnce
    rw [hcond, if_neg Bool.false_ne_true, hb]
    simp only [Option.getD_some]
    have hd : ¬ ((processChunks extract initPState [] chunks).done = true) := by
      rw [hdone]
      exact Bool.false_ne_true
    rw [if_neg hd]
    have hr : ¬ ((processChunks extract initPState [] chunks).reply = []) := by
      rw [hrep]
      exact hj
    rw [if_neg hr, hrep]
  refine ⟨?_, ?_, ?_, ?_⟩
  · rw [hmain msgs]
  · rw [hmain msgs]
  · simp [askGPTStreamWithRetry, retryGo, hmain]
  · simp [askGPTStreamWithRetry, retryGo, hmain]

/-- C7, witness: two delta-bearing data lines and no terminator yield one
assistant message `ab` and an immediately successful run. -/
theorem partial_output_preserved_witness :
    (streamChatOnce (fun p => some p) []
        ⟨true, 200, some ["data: a\n".data, "data: b\n".data], []⟩).1 =
      ⟨true, none, none⟩ ∧
    (streamChatOnce (fun p => some p) []
        ⟨true, 200, some ["data: a\n".data, "data: b\n".data], []⟩).2.1 =
      [] ++ [⟨Role.assistant,
        (deltasOf (fun p => some p) ["data: a\n".data, "data: b\n".data]).flatten⟩] ∧
    (askGPTStreamWithRetry
        (fun _ m => ((streamChatOnce (fun p => some p) m
            ⟨true, 200, some ["data: a\n".data, "data: b\n".data], []⟩).1,
          (streamChatOnce (fun p => some p) m
            ⟨true, 200, some ["data: a\n".data, "data: b\n".data], []⟩).2.1))
        [] "u".data).1 = RunOutcome.success ∧
    (askGPTStreamWithRetry
        (fun _ m => ((streamChatOnce (fun p => some p) m
            ⟨true, 200, some ["data: a\n".data, "data: b\n".data], []⟩).1,
          (streamChatOnce (fun p => some p) m
            ⟨true, 200, some ["data: a\n".data, "data: b\n".data], []⟩).2.1))
        [] "u".data).2.2 = 1 :=
  partial_output_preserved (fun p => some p) []
    ⟨true, 200, some ["data: a\n".data, "data: b\n".data], []⟩
    ["data: a\n".data, "data: b\n".data] "u".data rfl rfl
    (by decide) (by decide)

end ChatCli
